import Mathlib

/-!
Verification of the `rust_ast_parser` type-classification engine
(`src/rust_ast_parser/src/lib.rs`) against its specification.

The Rust source is shallowly embedded: strings are `String`/`List Char`,
`syn` syntax nodes become Lean inductives, fallible operations return
`Except`/an explicit outcome type, and the panicking behaviour of the
underlying parser is made explicit as an outcome constructor.  The
external `syn` parser itself is out of scope (an opaque collaborator per
the specification) and is passed in as a function parameter where needed.
-/

namespace Sactor

/-- Unicode `White_Space` test, mirroring Rust's `char::is_whitespace`
(used by `str::split_whitespace` and `str::trim`). -/
def rustIsWs (c : Char) : Bool :=
  let n := c.toNat
  (9 ≤ n && n ≤ 13) || n = 32 || n = 0x85 || n = 0xA0 || n = 0x1680 ||
  (0x2000 ≤ n && n ≤ 0x200A) || n = 0x2028 || n = 0x2029 || n = 0x202F ||
  n = 0x205F || n = 0x3000

/-- Helper for `splitWs`: accumulates the current token (reversed) while
scanning. Mirrors the iterator produced by `str::split_whitespace`. -/
def splitWsAux : List Char → List Char → List (List Char)
  | [], acc => if acc.isEmpty then [] else [acc.reverse]
  | c :: cs, acc =>
    if rustIsWs c then
      (if acc.isEmpty then splitWsAux cs [] else acc.reverse :: splitWsAux cs [])
    else splitWsAux cs (c :: acc)

/-- `str::split_whitespace`: the maximal whitespace-free tokens. -/
def splitWs (l : List Char) : List (List Char) := splitWsAux l []

/-- Rejoining tokens with single spaces (the first loop of
`normalize_token_string`, which pushes the first token and then a space
before each further token). -/
def joinTokens : List (List Char) → List Char
  | [] => []
  | [t] => t
  | t :: ts => t ++ ' ' :: joinTokens ts

/-- Whitespace collapse: split on whitespace and rejoin with single
spaces, as the first phase of `normalize_token_string` does. -/
def collapseWsL (l : List Char) : List Char := joinTokens (splitWs l)

/-- Fuel-indexed core of `str::replace`: replaces non-overlapping
occurrences of `p :: ps` left to right, never rescanning the replacement
text (Rust stitches around `match_indices` of the original string). -/
def replaceAllAux (p : Char) (ps rep : List Char) : Nat → List Char → List Char
  | _, [] => []
  | 0, l => l
  | fuel + 1, c :: rest =>
    if (p :: ps).isPrefixOf (c :: rest) then
      rep ++ replaceAllAux p ps rep fuel (rest.drop ps.length)
    else
      c :: replaceAllAux p ps rep fuel rest

/-- `str::replace` with a nonempty pattern `p :: ps`. -/
def replaceAllL (p : Char) (ps rep : List Char) (l : List Char) : List Char :=
  replaceAllAux p ps rep l.length l

/-- The fixed chain of punctuation replacements applied by
`normalize_token_string`, in source order. -/
def chainReplaceL (l : List Char) : List Char :=
  let r := replaceAllL ' ' [':', ':', ' '] [':', ':'] l
  let r := replaceAllL ' ' [':', ':'] [':', ':'] r
  let r := replaceAllL ':' [':', ' '] [':', ':'] r
  let r := replaceAllL ' ' ['<'] ['<'] r
  let r := replaceAllL '<' [' '] ['<'] r
  let r := replaceAllL ' ' ['>'] ['>'] r
  let r := replaceAllL '*' [' ', 'm', 'u', 't'] ['*', 'm', 'u', 't'] r
  let r := replaceAllL '*' [' ', 'c', 'o', 'n', 's', 't'] ['*', 'c', 'o', 'n', 's', 't'] r
  let r := replaceAllL '&' [' ', 'm', 'u', 't'] ['&', 'm', 'u', 't'] r
  let r := replaceAllL '&' [' ', '\''] ['&', '\''] r
  r

/-- `str::trim`. -/
def trimL (l : List Char) : List Char :=
  ((l.dropWhile rustIsWs).reverse.dropWhile rustIsWs).reverse

/-- `str::split` on a single separator character; keeps empty segments,
like Rust's `split`. -/
def splitOnCharL (sep : Char) : List Char → List (List Char)
  | [] => [[]]
  | c :: rest =>
    if c = sep then [] :: splitOnCharL sep rest
    else
      match splitOnCharL sep rest with
      | s :: ss => (c :: s) :: ss
      | [] => [[c]]

/-- The comma segment pass of `normalize_token_string`: split on `','`,
trim each segment, drop empties, rejoin with `", "`. -/
def commaJoinL (l : List Char) : List Char :=
  List.intercalate [',', ' ']
    (((splitOnCharL ',' l).map trimL).filter (fun seg => ¬seg.isEmpty))

/-- `normalize_token_string` on character lists. -/
def normalizeTokL (l : List Char) : List Char :=
  let r := chainReplaceL (collapseWsL l)
  if r.contains ',' then commaJoinL r else r

/-- The Token Normalizer `normalize_token_string`. -/
def normalize_token_string (s : String) : String := ⟨normalizeTokL s.data⟩

/-- Whitespace collapse on strings (the split-and-rejoin phase alone). -/
def collapseWs (s : String) : String := ⟨collapseWsL s.data⟩

/-! ### Scalar Alias Table (`libc_scalar_pairs`, `map_libc_scalar`) -/

/-- `str::split_once`: split at the first occurrence of `sep`. -/
def splitOnceCharL (sep : Char) : List Char → Option (List Char × List Char)
  | [] => none
  | c :: rest =>
    if c = sep then some ([], rest)
    else (splitOnceCharL sep rest).map (fun p => (c :: p.1, p.2))

/-- `str::lines`: split on `'\n'`, drop one trailing empty segment, strip
one trailing `'\r'` per line. -/
def rustLinesL (l : List Char) : List (List Char) :=
  let parts := splitOnCharL '\n' l
  let parts := if parts.getLast? = some [] then parts.dropLast else parts
  parts.map (fun seg => if seg.getLast? = some '\r' then seg.dropLast else seg)

/-- The panic message used for a malformed table line (0-based index). -/
def invalidEntryMsg (idx : Nat) : String :=
  "Invalid entry in libc_scalar_map.txt on line " ++ toString (idx + 1)

/-- Scan of the table lines in `libc_scalar_pairs`; the fatal panic on a
malformed line is modelled as `Except.error`. -/
def libcScalarPairsAux : Nat → List (List Char) → Except String (List (String × String))
  | _, [] => .ok []
  | idx, rawLine :: rest =>
    let line := trimL rawLine
    if line.isEmpty || line.head? = some '#' then libcScalarPairsAux (idx + 1) rest
    else
      match splitOnceCharL '=' line with
      | none => .error (invalidEntryMsg idx)
      | some (lhs, rhs) =>
        let src := trimL lhs
        let dst := trimL rhs
        if src.isEmpty || dst.isEmpty then .error (invalidEntryMsg idx)
        else
          match libcScalarPairsAux (idx + 1) rest with
          | .ok pairs => .ok ((⟨src⟩, ⟨dst⟩) :: pairs)
          | .error e => .error e

/-- Building the Scalar Alias Table from the bundled resource text
(`libc_scalar_pairs`, minus the `OnceLock` caching, which is pure
memoization). -/
def buildLibcScalarPairs (text : String) : Except String (List (String × String)) :=
  libcScalarPairsAux 0 (rustLinesL text.data)

/-- `s.split("::").last()`, as used on alias names and candidates. -/
def splitOnStrAux (p : Char) (ps : List Char) : Nat → List Char → List (List Char)
  | _, [] => [[]]
  | 0, l => [l]
  | fuel + 1, c :: rest =>
    if (p :: ps).isPrefixOf (c :: rest) then
      [] :: splitOnStrAux p ps fuel (rest.drop ps.length)
    else
      match splitOnStrAux p ps fuel rest with
      | s :: ss => (c :: s) :: ss
      | [] => [[c]]

/-- `str::split` with the two-character pattern `"::"`. -/
def splitPathSep (l : List Char) : List (List Char) :=
  splitOnStrAux ':' [':'] l.length l

/-- Final segment of a `"::"`-separated name (`split("::").last()`). -/
def lastPathSegment (s : String) : String :=
  ⟨(splitPathSep s.data).getLastD []⟩

/-- `map_libc_scalar`: linear scan in table order; each entry matches on
the full alias or on the alias's final path segment; first match wins. -/
def mapLibcScalar (table : List (String × String)) (name : String) : Option String :=
  match table with
  | [] => none
  | (src, dst) :: rest =>
    if src = name then some dst
    else if lastPathSegment src = name then some dst
    else mapLibcScalar rest name

/-- `NUMERIC_PRIMITIVES`. -/
def NUMERIC_PRIMITIVES : List String :=
  ["u8", "i8", "u16", "i16", "u32", "i32", "u64", "i64", "usize", "isize", "f32", "f64"]

/-- `is_numeric_primitive`. -/
def isNumericPrimitive (name : String) : Bool :=
  NUMERIC_PRIMITIVES.any (fun item => item = name)

/-- `push_unique`: append if nonempty and not already present. -/
def pushUnique (vec : List String) (value : String) : List String :=
  if ¬value.isEmpty ∧ ¬vec.any (fun existing => existing = value) then vec ++ [value]
  else vec

/-! ### `TypeTraits`

The Rust struct is recursive through `Option<Box<TypeTraits>>` fields;
in Lean it is a single-constructor inductive (field order as in the
source) with one accessor per field and one rebuilding updater per
mutation site of `analyze_type`/`finalize_metadata`. -/

inductive Traits where
  | mk
    (raw normalized : String)
    (path_ident : Option String)
    (is_reference is_mut_reference : Bool)
    (is_slice : Bool)
    (slice_elem : Option String)
    (is_str is_string : Bool)
    (is_option : Bool)
    (option_inner reference_inner : Option Traits)
    (is_pointer pointer_is_mut : Bool)
    (pointer_depth : Nat)
    (pointer_inner : Option Traits)
    (is_box : Bool)
    (box_inner : Option Traits)
    (pointer_base_ident pointer_base_normalized pointer_base_raw pointer_element : Option String)
    (box_innermost : Option String)

namespace Traits

def raw : Traits → String
  | .mk r _ _ _ _ _ _ _ _ _ _ _ _ _ _ _ _ _ _ _ _ _ _ => r

def normalized : Traits → String
  | .mk _ n _ _ _ _ _ _ _ _ _ _ _ _ _ _ _ _ _ _ _ _ _ => n

def path_ident : Traits → Option String
  | .mk _ _ p _ _ _ _ _ _ _ _ _ _ _ _ _ _ _ _ _ _ _ _ => p

def is_reference : Traits → Bool
  | .mk _ _ _ b _ _ _ _ _ _ _ _ _ _ _ _ _ _ _ _ _ _ _ => b

def is_mut_reference : Traits → Bool
  | .mk _ _ _ _ b _ _ _ _ _ _ _ _ _ _ _ _ _ _ _ _ _ _ => b

def is_slice : Traits → Bool
  | .mk _ _ _ _ _ b _ _ _ _ _ _ _ _ _ _ _ _ _ _ _ _ _ => b

def slice_elem : Traits → Option String
  | .mk _ _ _ _ _ _ e _ _ _ _ _ _ _ _ _ _ _ _ _ _ _ _ => e

def is_str : Traits → Bool
  | .mk _ _ _ _ _ _ _ b _ _ _ _ _ _ _ _ _ _ _ _ _ _ _ => b

def is_string : Traits → Bool
  | .mk _ _ _ _ _ _ _ _ b _ _ _ _ _ _ _ _ _ _ _ _ _ _ => b

def is_option : Traits → Bool
  | .mk _ _ _ _ _ _ _ _ _ b _ _ _ _ _ _ _ _ _ _ _ _ _ => b

def option_inner : Traits → Option Traits
  | .mk _ _ _ _ _ _ _ _ _ _ o _ _ _ _ _ _ _ _ _ _ _ _ => o

def reference_inner : Traits → Option Traits
  | .mk _ _ _ _ _ _ _ _ _ _ _ o _ _ _ _ _ _ _ _ _ _ _ => o

def is_pointer : Traits → Bool
  | .mk _ _ _ _ _ _ _ _ _ _ _ _ b _ _ _ _ _ _ _ _ _ _ => b

def pointer_is_mut : Traits → Bool
  | .mk _ _ _ _ _ _ _ _ _ _ _ _ _ b _ _ _ _ _ _ _ _ _ => b

def pointer_depth : Traits → Nat
  | .mk _ _ _ _ _ _ _ _ _ _ _ _ _ _ d _ _ _ _ _ _ _ _ => d

def pointer_inner : Traits → Option Traits
  | .mk _ _ _ _ _ _ _ _ _ _ _ _ _ _ _ o _ _ _ _ _ _ _ => o

def is_box : Traits → Bool
  | .mk _ _ _ _ _ _ _ _ _ _ _ _ _ _ _ _ b _ _ _ _ _ _ => b

def box_inner : Traits → Option Traits
  | .mk _ _ _ _ _ _ _ _ _ _ _ _ _ _ _ _ _ o _ _ _ _ _ => o

def pointer_base_ident : Traits → Option String
  | .mk _ _ _ _ _ _ _ _ _ _ _ _ _ _ _ _ _ _ o _ _ _ _ => o

def pointer_base_normalized : Traits → Option String
  | .mk _ _ _ _ _ _ _ _ _ _ _ _ _ _ _ _ _ _ _ o _ _ _ => o

def pointer_base_raw : Traits → Option String
  | .mk _ _ _ _ _ _ _ _ _ _ _ _ _ _ _ _ _ _ _ _ o _ _ => o

def pointer_element : Traits → Option String
  | .mk _ _ _ _ _ _ _ _ _ _ _ _ _ _ _ _ _ _ _ _ _ o _ => o

def box_innermost : Traits → Option String
  | .mk _ _ _ _ _ _ _ _ _ _ _ _ _ _ _ _ _ _ _ _ _ _ o => o

/-- `TypeTraits::new`: all flags false, all companions absent. -/
def base (raw normalized : String) : Traits :=
  .mk raw normalized none false false false none false false false none none
    false false 0 none false none none none none none none

def setRawNorm : Traits → String → String → Traits
  | .mk _ _ pid ir imr isl sel istr istg iop oin rin ip pim pd pin ib bin pbi pbn pbr pel bim,
      r, n =>
    .mk r n pid ir imr isl sel istr istg iop oin rin ip pim pd pin ib bin pbi pbn pbr pel bim

def setPathIdent : Traits → Option String → Traits
  | .mk raw nrm _ ir imr isl sel istr istg iop oin rin ip pim pd pin ib bin pbi pbn pbr pel bim,
      p =>
    .mk raw nrm p ir imr isl sel istr istg iop oin rin ip pim pd pin ib bin pbi pbn pbr pel bim

def setRefFlags : Traits → Bool → Bool → Traits
  | .mk raw nrm pid _ _ isl sel istr istg iop oin rin ip pim pd pin ib bin pbi pbn pbr pel bim,
      r, m =>
    .mk raw nrm pid r m isl sel istr istg iop oin rin ip pim pd pin ib bin pbi pbn pbr pel bim

def setSlicePair : Traits → Bool → Option String → Traits
  | .mk raw nrm pid ir imr _ _ istr istg iop oin rin ip pim pd pin ib bin pbi pbn pbr pel bim,
      b, e =>
    .mk raw nrm pid ir imr b e istr istg iop oin rin ip pim pd pin ib bin pbi pbn pbr pel bim

def setStrFlag : Traits → Bool → Traits
  | .mk raw nrm pid ir imr isl sel _ istg iop oin rin ip pim pd pin ib bin pbi pbn pbr pel bim,
      b =>
    .mk raw nrm pid ir imr isl sel b istg iop oin rin ip pim pd pin ib bin pbi pbn pbr pel bim

def setStringFlag : Traits → Bool → Traits
  | .mk raw nrm pid ir imr isl sel istr _ iop oin rin ip pim pd pin ib bin pbi pbn pbr pel bim,
      b =>
    .mk raw nrm pid ir imr isl sel istr b iop oin rin ip pim pd pin ib bin pbi pbn pbr pel bim

def setOptionFlag : Traits → Bool → Traits
  | .mk raw nrm pid ir imr isl sel istr istg _ oin rin ip pim pd pin ib bin pbi pbn pbr pel bim,
      b =>
    .mk raw nrm pid ir imr isl sel istr istg b oin rin ip pim pd pin ib bin pbi pbn pbr pel bim

def setOptionInner : Traits → Option Traits → Traits
  | .mk raw nrm pid ir imr isl sel istr istg iop _ rin ip pim pd pin ib bin pbi pbn pbr pel bim,
      o =>
    .mk raw nrm pid ir imr isl sel istr istg iop o rin ip pim pd pin ib bin pbi pbn pbr pel bim

def setReferenceInner : Traits → Option Traits → Traits
  | .mk raw nrm pid ir imr isl sel istr istg iop oin _ ip pim pd pin ib bin pbi pbn pbr pel bim,
      o =>
    .mk raw nrm pid ir imr isl sel istr istg iop oin o ip pim pd pin ib bin pbi pbn pbr pel bim

def setPtrFlags : Traits → Bool → Bool → Traits
  | .mk raw nrm pid ir imr isl sel istr istg iop oin rin _ _ pd pin ib bin pbi pbn pbr pel bim,
      p, m =>
    .mk raw nrm pid ir imr isl sel istr istg iop oin rin p m pd pin ib bin pbi pbn pbr pel bim

def setPtrDepth : Traits → Nat → Traits
  | .mk raw nrm pid ir imr isl sel istr istg iop oin rin ip pim _ pin ib bin pbi pbn pbr pel bim,
      d =>
    .mk raw nrm pid ir imr isl sel istr istg iop oin rin ip pim d pin ib bin pbi pbn pbr pel bim

def setPointerInner : Traits → Option Traits → Traits
  | .mk raw nrm pid ir imr isl sel istr istg iop oin rin ip pim pd _ ib bin pbi pbn pbr pel bim,
      o =>
    .mk raw nrm pid ir imr isl sel istr istg iop oin rin ip pim pd o ib bin pbi pbn pbr pel bim

def setBoxFlag : Traits → Bool → Traits
  | .mk raw nrm pid ir imr isl sel istr istg iop oin rin ip pim pd pin _ bin pbi pbn pbr pel bim,
      b =>
    .mk raw nrm pid ir imr isl sel istr istg iop oin rin ip pim pd pin b bin pbi pbn pbr pel bim

def setBoxInner : Traits → Option Traits → Traits
  | .mk raw nrm pid ir imr isl sel istr istg iop oin rin ip pim pd pin ib _ pbi pbn pbr pel bim,
      o =>
    .mk raw nrm pid ir imr isl sel istr istg iop oin rin ip pim pd pin ib o pbi pbn pbr pel bim

def setPtrMeta : Traits → Option String → Option String → Option String → Option String → Traits
  | .mk raw nrm pid ir imr isl sel istr istg iop oin rin ip pim pd pin ib bin _ _ _ _ bim,
      a, b, c, d =>
    .mk raw nrm pid ir imr isl sel istr istg iop oin rin ip pim pd pin ib bin a b c d bim

def setBoxInnermost : Traits → Option String → Traits
  | .mk raw nrm pid ir imr isl sel istr istg iop oin rin ip pim pd pin ib bin pbi pbn pbr pel _,
      o =>
    .mk raw nrm pid ir imr isl sel istr istg iop oin rin ip pim pd pin ib bin pbi pbn pbr pel o

end Traits

/-! ### Pointer Base Resolver and Box-Innermost Resolver -/

/-- The descent loop of `pointer_base`: stop at the first non-pointer
node, fail if a pointer node lacks `pointer_inner`. -/
def pointerBaseLoop : Traits → Option Traits
  | t@(.mk _ _ _ _ _ _ _ _ _ _ _ _ isPtr _ _ pInner _ _ _ _ _ _ _) =>
    if ¬isPtr then some t
    else
      match pInner with
      | some next => pointerBaseLoop next
      | none => none

/-- `pointer_base`. -/
def pointerBase (t : Traits) : Option Traits :=
  if ¬t.is_pointer then none
  else
    match t.pointer_inner with
    | some current => pointerBaseLoop current
    | none => none

/-- `compute_box_innermost`: unwrap through box (preferring the nested
result, falling back to the inner node's normalized then raw rendering),
option-of-box and reference-to-box; anything else yields nothing. -/
def computeBoxInnermost : Traits → Option String
  | .mk _ _ _ isRef _ _ _ _ _ isOpt optInner refInner _ _ _ _ isBox boxInner _ _ _ _ _ =>
    if isBox then
      match boxInner with
      | some inner =>
        match computeBoxInnermost inner with
        | some nested => some nested
        | none =>
          let n := normalize_token_string inner.normalized
          if ¬n.isEmpty then some n
          else
            let r := normalize_token_string inner.raw
            if ¬r.isEmpty then some r else none
      | none => none
    else
      match isOpt, optInner with
      | true, some inner => computeBoxInnermost inner
      | _, _ =>
        match isRef, refInner with
        | true, some inner => computeBoxInnermost inner
        | _, _ => none

/-- `PointerMetadata`. -/
structure PointerMetadata where
  base_ident : Option String
  base_normalized : Option String
  base_raw : Option String
  element : String

/-- The ordered de-duplicated candidate list built by
`compute_pointer_metadata`: `path_ident`, re-normalized `normalized`,
re-normalized `raw`, then the final path segment of each candidate that
differs from it (appended through `push_unique`). -/
def expandedCandidates (b : Traits) : List String :=
  let candidates : List String := []
  let candidates :=
    match b.path_ident with
    | some ident => pushUnique candidates ident
    | none => candidates
  let normalized := normalize_token_string b.normalized
  let candidates := if ¬normalized.isEmpty then pushUnique candidates normalized else candidates
  let raw := normalize_token_string b.raw
  let candidates := if ¬raw.isEmpty then pushUnique candidates raw else candidates
  candidates.foldl
    (fun expanded candidate =>
      let tail := lastPathSegment candidate
      if tail ≠ candidate then pushUnique expanded tail else expanded)
    candidates

/-- First loop of the selection in `compute_pointer_metadata`: first
candidate with a Scalar Alias Table match. -/
def findMappedCandidate (table : List (String × String)) : List String → Option String
  | [] => none
  | c :: cs =>
    match mapLibcScalar table c with
    | some mapped => some mapped
    | none => findMappedCandidate table cs

/-- Second loop: first candidate that is a numeric primitive name. -/
def findNumericCandidate : List String → Option String
  | [] => none
  | c :: cs => if isNumericPrimitive c then some c else findNumericCandidate cs

/-- Third phase: first non-empty candidate (`find(|c| !c.is_empty())`). -/
def findNonemptyCandidate : List String → Option String
  | [] => none
  | c :: cs => if ¬c.isEmpty then some c else findNonemptyCandidate cs

/-- `compute_pointer_metadata`. -/
def computePointerMetadata (table : List (String × String)) (t : Traits) : PointerMetadata :=
  match pointerBase t with
  | some b =>
    let normalized := normalize_token_string b.normalized
    let raw := normalize_token_string b.raw
    let expanded := expandedCandidates b
    let baseIdent := b.path_ident
    let baseNorm := if normalized.isEmpty then none else some normalized
    let baseRaw := if raw.isEmpty then none else some raw
    match findMappedCandidate table expanded with
    | some mapped => ⟨baseIdent, baseNorm, baseRaw, mapped⟩
    | none =>
      match findNumericCandidate expanded with
      | some c => ⟨baseIdent, baseNorm, baseRaw, c⟩
      | none => ⟨baseIdent, baseNorm, baseRaw, (findNonemptyCandidate expanded).getD "u8"⟩
  | none => ⟨none, none, none, "u8"⟩

/-- `finalize_metadata`: fill the `pointer_*` fields (only for pointer
nodes) and then `box_innermost`, from the fully built node. -/
def finalizeMetadata (table : List (String × String)) (t : Traits) : Traits :=
  let t' :=
    if t.is_pointer then
      let meta := computePointerMetadata table t
      t.setPtrMeta meta.base_ident meta.base_normalized meta.base_raw (some meta.element)
    else t.setPtrMeta none none none none
  t'.setBoxInnermost (computeBoxInnermost t')

/-! ### The type-expression grammar and `analyze_type`

`syn::Type` shapes relevant to `analyze_type`.  Since the classifier
only ever consumes the *first type argument of the last path segment*,
a path is modelled with its segment identifiers plus either no generic
type argument (`path0`) or one (`path1`); `leadingColon`/`qself` mirror
`Path::leading_colon` and `TypePath::qself`.  Tuples, arrays, bare-fn,
trait-object, macro, infer and never types — which classify as plain
nodes — are folded into `other` carrying their token rendering. -/

inductive RustType where
  | reference (lifetime : Option String) (isMut : Bool) (elem : RustType)
  | slice (elem : RustType)
  | path0 (leadingColon qself : Bool) (segs : List String)
  | path1 (leadingColon qself : Bool) (segs : List String) (arg : RustType)
  | ptr (isMut : Bool) (elem : RustType)
  | paren (elem : RustType)
  | group (elem : RustType)
  | other (toks : List String)
deriving DecidableEq

/-- Tokens joined by single spaces (as `TokenStream::to_string` does). -/
def joinWithSpace : List String → String
  | [] => ""
  | [t] => t
  | t :: ts => t ++ " " ++ joinWithSpace ts

/-- Path segments interleaved with the `"::"` separator token. -/
def pathSegToks : List String → List String
  | [] => []
  | [s] => [s]
  | s :: rest => s :: "::" :: pathSegToks rest

/-- Token rendering of a type, as `to_token_stream().to_string()`
produces it: tokens are joined with single spaces, `"::"` is a single
(joint) token, lifetimes render attached to their apostrophe, and
bracketed/parenthesised groups render with no inner padding. -/
def renderToks : RustType → List String
  | .reference lt m elem =>
    "&" :: ((match lt with | some l => ["'" ++ l] | none => []) ++
      (if m then ["mut"] else []) ++ renderToks elem)
  | .slice elem => ["[" ++ joinWithSpace (renderToks elem) ++ "]"]
  | .path0 lc _ segs => (if lc then ["::"] else []) ++ pathSegToks segs
  | .path1 lc _ segs arg =>
    ((if lc then ["::"] else []) ++ pathSegToks segs) ++ ["<"] ++ renderToks arg ++ [">"]
  | .ptr m elem => "*" :: (if m then "mut" else "const") :: renderToks elem
  | .paren elem => ["(" ++ joinWithSpace (renderToks elem) ++ ")"]
  | .group elem => renderToks elem
  | .other toks => toks

/-- `ty.to_token_stream().to_string()`. -/
def rawOf (ty : RustType) : String := joinWithSpace (renderToks ty)

/-- The in-arm flag propagation used by the reference/`Option`/`Box`
arms (unguarded) — copies slice/str/string info from the inner node. -/
def armPropagate (t inner : Traits) : Traits :=
  let t := if inner.is_slice then t.setSlicePair true inner.slice_elem else t
  let t := if inner.is_str then t.setStrFlag true else t
  let t := if inner.is_string then t.setStringFlag true else t
  t

/-- The guarded propagation of the two post-switch passes (and of the
`Type::Ptr` arm): only adopt the slice info if none is present yet. -/
def guardedPropagate (t inner : Traits) : Traits :=
  let t :=
    if t.slice_elem.isNone && inner.is_slice then t.setSlicePair true inner.slice_elem else t
  let t := if inner.is_str then t.setStrFlag true else t
  let t := if inner.is_string then t.setStringFlag true else t
  t

/-- Post-switch pass copying flags up from `reference_inner`. -/
def postReferenceProp (t : Traits) : Traits :=
  if t.is_reference then
    match t.reference_inner with
    | some inner => guardedPropagate t inner
    | none => t
  else t

/-- Post-switch pass copying flags up from `option_inner`. -/
def postOptionProp (t : Traits) : Traits :=
  if t.is_option then
    match t.option_inner with
    | some inner => guardedPropagate t inner
    | none => t
  else t

/-- `analyze_type`: recursive classification of a type expression.  The
two post-switch propagation passes and `finalize_metadata` run on every
non-transparent node, exactly as in the source. -/
def analyzeType (table : List (String × String)) : RustType → Traits
  | .paren elem =>
    let inner := analyzeType table elem
    inner.setRawNorm (rawOf (.paren elem)) (normalize_token_string (rawOf (.paren elem)))
  | .group elem =>
    let inner := analyzeType table elem
    inner.setRawNorm (rawOf (.group elem)) (normalize_token_string (rawOf (.group elem)))
  | .reference lt m elem =>
    let raw := rawOf (.reference lt m elem)
    let t := Traits.base raw (normalize_token_string raw)
    let t := t.setRefFlags true m
    let inner := analyzeType table elem
    let t := armPropagate t inner
    let t := t.setReferenceInner (some inner)
    finalizeMetadata table (postOptionProp (postReferenceProp t))
  | .slice elem =>
    let raw := rawOf (.slice elem)
    let t := Traits.base raw (normalize_token_string raw)
    let t := t.setSlicePair true (some (rawOf elem))
    finalizeMetadata table (postOptionProp (postReferenceProp t))
  | .path0 lc q segs =>
    let raw := rawOf (.path0 lc q segs)
    let t := Traits.base raw (normalize_token_string raw)
    let t :=
      match segs.getLast? with
      | none => t
      | some ident =>
        let t := t.setPathIdent (some ident)
        if ident = "String" then t.setStringFlag true
        else if ident = "str" then t.setStrFlag true
        else if ident = "Option" then t.setOptionFlag true
        else if ident = "Box" then t.setBoxFlag true
        else t
    finalizeMetadata table (postOptionProp (postReferenceProp t))
  | .path1 lc q segs arg =>
    let raw := rawOf (.path1 lc q segs arg)
    let t := Traits.base raw (normalize_token_string raw)
    let t :=
      match segs.getLast? with
      | none => t
      | some ident =>
        let t := t.setPathIdent (some ident)
        if ident = "String" then t.setStringFlag true
        else if ident = "str" then t.setStrFlag true
        else if ident = "Option" then
          let t := t.setOptionFlag true
          let inner := analyzeType table arg
          let t := armPropagate t inner
          let t :=
            if inner.is_box && !t.is_box then (t.setBoxFlag true).setBoxInner inner.box_inner
            else t
          t.setOptionInner (some inner)
        else if ident = "Box" then
          let t := t.setBoxFlag true
          let inner := analyzeType table arg
          let t := armPropagate t inner
          t.setBoxInner (some inner)
        else t
    finalizeMetadata table (postOptionProp (postReferenceProp t))
  | .ptr m elem =>
    let raw := rawOf (.ptr m elem)
    let t := Traits.base raw (normalize_token_string raw)
    let t := t.setPtrFlags true m
    let inner := analyzeType table elem
    let t := t.setPtrDepth (inner.pointer_depth + 1)
    let t := guardedPropagate t inner
    let t := t.setPointerInner (some inner)
    finalizeMetadata table (postOptionProp (postReferenceProp t))
  | .other toks =>
    let raw := rawOf (.other toks)
    let t := Traits.base raw (normalize_token_string raw)
    finalizeMetadata table (postOptionProp (postReferenceProp t))

/-! ### Entry points: `parse_src`, `parse_type_traits`, `parse_function_signature`

The `syn` parser is an opaque external collaborator; it is passed in as
a function returning an `Outcome`, whose `panicked` constructor models
abnormal termination (a Rust panic) of the parser, carrying the panic
payload when it is a string (`None` models a non-string payload). -/

inductive Outcome (α : Type) where
  | ok (val : α)
  | err (msg : String)
  | panicked (payload : Option String)

/-- Whether an outcome is an uncaught abnormal termination. -/
def Outcome.isPanicked {α : Type} : Outcome α → Bool
  | .panicked _ => true
  | _ => false

/-- `str::trim` on `String`. -/
def rustTrim (s : String) : String := ⟨trimL s.data⟩

/-- `parse_src`: the `catch_unwind` boundary around the whole-file
parse.  A panic with a string payload becomes the descriptive error
`"Error when parsing Rust: …"`, any other payload the generic message;
ordinary parse errors pass through (their `PySyntaxError`/context
formatting lives in the opaque parser's message here, since span data is
not modelled). -/
def parseSrcModel {α : Type} (parse : String → Outcome α) (sourceCode : String) : Outcome α :=
  match parse sourceCode with
  | .panicked (some m) => .err ("Error when parsing Rust: " ++ m)
  | .panicked none => .err "Error when parsing Rust."
  | .ok v => .ok v
  | .err e => .err e

/-- `parse_type_traits`: trim, reject empty input, then call the type
parser *directly* (no panic boundary) and classify. -/
def parseTypeTraitsModel (parseTy : String → Outcome RustType)
    (table : List (String × String)) (ty : String) : Outcome Traits :=
  let trimmed := rustTrim ty
  if trimmed.isEmpty then .err "Type string cannot be empty"
  else
    match parseTy trimmed with
    | .ok parsedType => .ok (analyzeType table parsedType)
    | .err e => .err ("Failed to parse type: " ++ e)
    | .panicked m => .panicked m

/-- `syn::Pat` of a typed parameter: a plain identifier binding or any
other pattern (kept as its token rendering, as `quote!(#other)`). -/
inductive PatM where
  | identPat (name : String)
  | otherPat (toks : List String)
deriving DecidableEq

/-- `syn::FnArg`: a receiver (`self`/`&self`/`&mut self`) or a typed
parameter. -/
inductive FnArgM where
  | receiver
  | typed (pat : PatM) (ty : RustType)
deriving DecidableEq

/-- The parts of a parsed `syn::ItemFn` that `parse_function_signature`
reads: name, inputs in declaration order, optional return type. -/
structure ItemFnM where
  name : String
  inputs : List FnArgM
  output : Option RustType
deriving DecidableEq

/-- Parameter-name extraction (`Pat::Ident` ident, else token text). -/
def patName : PatM → String
  | .identPat n => n
  | .otherPat toks => String.intercalate " " toks

/-- One entry of the returned parameter list. -/
structure SigParam where
  name : String
  tyRaw : String
  traits : Traits

/-- The result dictionary of `parse_function_signature`. -/
structure SigResult where
  name : String
  params : List SigParam
  ret : Option Traits

/-- How one `FnArg` contributes to the params list: receivers are
skipped (`continue`), typed parameters yield (name, raw type, traits). -/
def typedEntry (table : List (String × String)) : FnArgM → Option SigParam
  | .receiver => none
  | .typed pat ty =>
    let traits := analyzeType table ty
    some ⟨patName pat, traits.raw, traits⟩

/-- `s.trim_end_matches(';')`. -/
def trimEndSemis (s : String) : String :=
  ⟨(s.data.reverse.dropWhile (fun c => c = ';')).reverse⟩

/-- The snippet actually handed to the parser: trimmed signature with
trailing semicolons removed and `" {}"` appended when no body brace is
present. -/
def signatureSnippet (signature : String) : String :=
  let cleaned := trimEndSemis (rustTrim signature)
  if cleaned.data.contains '{' then cleaned else cleaned ++ " {}"

/-- `parse_function_signature`: trim, reject empty input, prepare the
snippet, parse it as a function item (directly, no panic boundary), and
assemble name, parameter list (receivers silently dropped) and return
traits. -/
def parseFunctionSignatureModel (parseFn : String → Outcome ItemFnM)
    (table : List (String × String)) (signature : String) : Outcome SigResult :=
  let trimmed := rustTrim signature
  if trimmed.isEmpty then .err "Function signature cannot be empty"
  else
    match parseFn (signatureSnippet signature) with
    | .ok item =>
      .ok ⟨item.name, item.inputs.filterMap (typedEntry table),
        item.output.map (analyzeType table)⟩
    | .err e => .err ("Failed to parse function signature: " ++ e)
    | .panicked m => .panicked m

/-! ### Alias-Declaration Normalizer (`normalize_stdint_aliases`)

`syn::UseTree` is modelled with the brace group unrolled into a cons
chain (`gnil`/`gcons`) of the same inductive, so that every function
below is plainly structurally recursive; a `syn` `Group(items)` node is
the chain of its items.  `BTreeSet<String>` is modelled as a sorted,
duplicate-free `List String` (its iteration order is sorted). -/

inductive UseTree where
  | upath (ident : String) (sub : UseTree)
  | gnil
  | gcons (hd tl : UseTree)
  | uname (ident : String)
  | urename (ident ren : String)
  | uglob
deriving DecidableEq

/-- Build a brace-group chain from a list of trees. -/
def listToChain : List UseTree → UseTree
  | [] => .gnil
  | t :: ts => .gcons t (listToChain ts)

/-- Lexicographic codepoint comparison of character lists (on valid
UTF-8 this is exactly Rust's byte-wise `String` ordering). -/
def strLtList : List Char → List Char → Bool
  | [], [] => false
  | [], _ :: _ => true
  | _ :: _, [] => false
  | a :: as, b :: bs =>
    if a.toNat < b.toNat then true
    else if b.toNat < a.toNat then false
    else strLtList as bs

/-- String ordering used by `BTreeSet<String>`. -/
def strLt (a b : String) : Bool := strLtList a.data b.data

/-- Sorted-set insertion (UTF-8 order, as `BTreeSet<String>`). -/
def sortedInsert (s : String) : List String → List String
  | [] => [s]
  | x :: xs =>
    if strLt s x then s :: x :: xs else if s = x then x :: xs else x :: sortedInsert s xs

/-- `BTreeSet::remove`. -/
def setErase (s : String) (l : List String) : List String := l.filter (fun x => x ≠ s)

/-- `BTreeSet::from_iter` / `extend`. -/
def setFromList (names : List String) : List String :=
  names.foldl (fun acc a => sortedInsert a acc) []

/-- `collect_libc_names`: gather the names imported under `libc` in a
use tree (accumulating into a sorted set) plus a glob flag; group
iteration stops at the first glob, as in the source. -/
def collectLibcNames : UseTree → Bool → List String → (List String × Bool)
  | .upath id sub, inLibc, acc => collectLibcNames sub (inLibc || id == "libc") acc
  | .gnil, _, acc => (acc, false)
  | .gcons hd tl, inLibc, acc =>
    let (acc1, g1) := collectLibcNames hd inLibc acc
    if g1 then (acc1, true) else collectLibcNames tl inLibc acc1
  | .uname id, inLibc, acc => (if inLibc then sortedInsert id acc else acc, false)
  | .urename id _, inLibc, acc => (if inLibc then sortedInsert id acc else acc, false)
  | .uglob, inLibc, acc => (acc, inLibc)

/-- Append `use`-names at the end of a group chain
(`group.items.push(Name(..))` for each addition). -/
def appendNames : UseTree → List String → UseTree
  | .gnil, names => listToChain (names.map .uname)
  | .gcons hd tl, names => .gcons hd (appendNames tl names)
  | t, _ => t

/-- `ensure_aliases_in_libc_group`: collect the existing names (glob
short-circuits and satisfies everything), append the missing needed
names to the group, and remove **only the appended** names from
`needed` — names already present in the group are not removed, exactly
as in the source. -/
def ensureAliasesInLibcGroup (chain : UseTree) (needed : List String) :
    (UseTree × List String) :=
  let (existing, hasGlob) := collectLibcNames chain true []
  if hasGlob then (chain, [])
  else
    let additions := needed.filter (fun a => ¬existing.contains a)
    if additions.isEmpty then (chain, needed)
    else (appendNames chain additions, needed.filter (fun a => existing.contains a))

/-- `ensure_aliases_in_use_tree`, returning the rewritten tree and the
remaining needed set.  A `Name` under `libc` satisfies its own name and
absorbs every remaining needed name by turning itself into a group; a
`Rename` satisfies its source name; a glob satisfies everything; group
iteration stops once `needed` is empty. -/
def ensureAliasesInUseTree (needed : List String) (inLibc : Bool) :
    UseTree → (UseTree × List String)
  | .upath id sub =>
    let r := ensureAliasesInUseTree needed (inLibc || id == "libc") sub
    (.upath id r.1, r.2)
  | .gnil =>
    if inLibc then ensureAliasesInLibcGroup .gnil needed else (.gnil, needed)
  | .gcons hd tl =>
    if inLibc then ensureAliasesInLibcGroup (.gcons hd tl) needed
    else
      let r1 := ensureAliasesInUseTree needed false hd
      if r1.2.isEmpty then (.gcons r1.1 tl, r1.2)
      else
        let r2 := ensureAliasesInUseTree r1.2 false tl
        (.gcons r1.1 r2.1, r2.2)
  | .uname id =>
    if ¬inLibc then (.uname id, needed)
    else
      let needed' := setErase id needed
      if needed'.isEmpty then (.uname id, needed')
      else (listToChain (.uname id :: needed'.map .uname), [])
  | .urename id ren =>
    if inLibc then (.urename id ren, setErase id needed) else (.urename id ren, needed)
  | .uglob => if inLibc then (.uglob, []) else (.uglob, needed)

/-- Top-level items of a compilation unit, reduced to what the pass
reads: a local type alias (name and right-hand type), a `use` item, or
any other item abstracted to the `syn::Path`s it contains (each as a
leading-colon flag plus segment identifiers, as `visit_path` sees it). -/
inductive Item where
  | typeAliasItem (name : String) (rhs : RustType)
  | useItem (tree : UseTree)
  | otherItem (paths : List (Bool × List String))
deriving DecidableEq

/-- `STDINT_ALIAS_TARGETS`. -/
def STDINT_ALIAS_TARGETS : List (String × String) :=
  [("int8_t", "i8"), ("int16_t", "i16"), ("int32_t", "i32"), ("int64_t", "i64"),
   ("uint8_t", "u8"), ("uint16_t", "u16"), ("uint32_t", "u32"), ("uint64_t", "u64")]

/-- `expected_stdint_target`. -/
def expectedStdintTarget (name : String) : Option String :=
  (STDINT_ALIAS_TARGETS.find? (fun p => p.1 = name)).map (fun p => p.2)

/-- `should_strip_stdint_alias`: the alias name must be a canonical
stdint name and the right-hand side exactly the expected bare primitive
path (no qself, single segment, no generic arguments). -/
def shouldStripStdintAlias (name : String) (rhs : RustType) : Option String :=
  match expectedStdintTarget name with
  | none => none
  | some expected =>
    match rhs with
    | .path0 _ false [seg] => if seg = expected then some name else none
    | _ => none

/-- The `syn::Path`s occurring inside a type (what the usage collector's
`visit_path` traversal reaches). -/
def pathsOfType : RustType → List (Bool × List String)
  | .reference _ _ e => pathsOfType e
  | .slice e => pathsOfType e
  | .path0 lc _ segs => [(lc, segs)]
  | .path1 lc _ segs arg => (lc, segs) :: pathsOfType arg
  | .ptr _ e => pathsOfType e
  | .paren e => pathsOfType e
  | .group e => pathsOfType e
  | .other _ => []

/-- The paths an item contributes to the usage scan (`use` trees contain
no `syn::Path` nodes). -/
def pathsOfItem : Item → List (Bool × List String)
  | .typeAliasItem _ rhs => pathsOfType rhs
  | .useItem _ => []
  | .otherItem ps => ps

/-- `collect_stdint_names`: bare (single-segment, no leading colon)
occurrences of canonical stdint names anywhere in the items. -/
def collectStdintNames (items : List Item) : List String :=
  items.foldl
    (fun acc it =>
      (pathsOfItem it).foldl
        (fun acc p =>
          match p with
          | (false, [seg]) =>
            if (expectedStdintTarget seg).isSome then sortedInsert seg acc else acc
          | _ => acc)
        acc)
    []

/-- The per-item loop of `ensure_libc_imports`: rewrite each `use` item
in order, threading `needed`, stopping after the item that empties it. -/
def goEnsureItems : List Item → List String → (List Item × List String)
  | [], needed => ([], needed)
  | .useItem tr :: rest, needed =>
    let r := ensureAliasesInUseTree needed false tr
    if r.2.isEmpty then (.useItem r.1 :: rest, r.2)
    else
      let rr := goEnsureItems rest r.2
      (.useItem r.1 :: rr.1, rr.2)
  | it :: rest, needed =>
    let rr := goEnsureItems rest needed
    (it :: rr.1, rr.2)

/-- Insertion position for a synthesized import: one past the last
existing `use` item, else the front. -/
def lastUseInsertIdxAux : List Item → Nat → Nat → Nat
  | [], _, best => best
  | .useItem _ :: rest, i, _ => lastUseInsertIdxAux rest (i + 1) (i + 1)
  | _ :: rest, i, best => lastUseInsertIdxAux rest (i + 1) best

def lastUseInsertIdx (items : List Item) : Nat := lastUseInsertIdxAux items 0 0

/-- `ensure_libc_imports`: satisfy `needed` against existing imports in
order; if anything remains, synthesize `use libc::{…};` with the
remaining names (sorted) and insert it after the last `use`. -/
def ensureLibcImports (items : List Item) (aliases : List String) : List Item :=
  if aliases.isEmpty then items
  else
    let needed := setFromList aliases
    let r := goEnsureItems items needed
    if r.2.isEmpty then r.1
    else
      let newUse := Item.useItem (.upath "libc" (listToChain (r.2.map .uname)))
      let idx := lastUseInsertIdx r.1
      r.1.take idx ++ newUse :: r.1.drop idx

/-- The name a stripped alias contributes, if the item is a strippable
alias declaration. -/
def stripName : Item → Option String
  | .typeAliasItem n rhs => shouldStripStdintAlias n rhs
  | _ => none

/-- `normalize_stdint_aliases`: drop redundant stdint alias
declarations, union their names with the bare stdint names still used,
and ensure the `libc` imports cover the union. -/
def normalizeStdintAliases (items : List Item) : List Item :=
  let removed := items.filterMap stripName
  let newItems := items.filter (fun it => (stripName it).isNone)
  let usages := collectStdintNames newItems
  let needed := setFromList (removed ++ usages)
  if needed.isEmpty then newItems
  else ensureLibcImports newItems needed

/-- Whether a use tree brings `libc::target` (or a `libc` glob) into
scope — used to count how many imports provide a name. -/
def treeBringsName (target : String) : UseTree → Bool → Bool
  | .upath id sub, inLibc => treeBringsName target sub (inLibc || id == "libc")
  | .gnil, _ => false
  | .gcons hd tl, inLibc => treeBringsName target hd inLibc || treeBringsName target tl inLibc
  | .uname id, inLibc => inLibc && id == target
  | .urename _ _, _ => false
  | .uglob, inLibc => inLibc

/-- Number of `use` items that import `target` from `libc`. -/
def countLibcImportsOf (items : List Item) (target : String) : Nat :=
  items.foldl
    (fun n it =>
      match it with
      | .useItem tr => if treeBringsName target tr false then n + 1 else n
      | _ => n)
    0

/-! ### Specification-side companion definitions

These restate, in the specification's vocabulary, what selected pieces
of the embedded code are claimed to compute; the theorems below relate
them to the embedded functions. -/

/-- Element selection as the spec words it: first candidate with a
Scalar Alias Table match wins; else the first candidate that is itself a
numeric primitive name; else the first non-empty candidate; else
`"u8"`. -/
def specSelectElement (table : List (String × String)) (cands : List String) : String :=
  match cands.findSome? (fun c => mapLibcScalar table c) with
  | some mapped => mapped
  | none =>
    match cands.find? (fun c => isNumericPrimitive c) with
    | some c => c
    | none => (cands.find? (fun c => ¬c.isEmpty)).getD "u8"

/-- Node-level companion-field invariant of one `TypeTraits` node:
`reference_inner`/`slice_elem`/`pointer_inner` are present exactly when
their flag is set, and `option_inner`/`box_inner` only when theirs is. -/
def nodeInv (t : Traits) : Bool :=
  (t.reference_inner.isSome == t.is_reference) &&
  (t.slice_elem.isSome == t.is_slice) &&
  (t.pointer_inner.isSome == t.is_pointer) &&
  (!t.option_inner.isSome || t.is_option) &&
  (!t.box_inner.isSome || t.is_box)

/-- The invariant, recursively over all nested nodes. -/
def invariantC4 : Traits → Bool
  | t@(.mk _ _ _ _ _ _ _ _ _ _ optInner refInner _ _ _ ptrInner _ boxInner _ _ _ _ _) =>
    nodeInv t &&
    (match optInner with | some i => invariantC4 i | none => true) &&
    (match refInner with | some i => invariantC4 i | none => true) &&
    (match ptrInner with | some i => invariantC4 i | none => true) &&
    (match boxInner with | some i => invariantC4 i | none => true)

/-- A nonempty name with no whitespace and no comma — the shape of a
plain type identifier, on which the Token Normalizer acts as the
identity. -/
def plainToken (s : String) : Bool :=
  ¬s.data.isEmpty && s.data.all (fun c => ¬rustIsWs c && c ≠ ',')

/-- The trimmed content of a table line that is neither blank nor a
`#` comment, if any. -/
def keptTrimmedLine (rawLine : List Char) : Option (List Char) :=
  let t := trimL rawLine
  if t.isEmpty || t.head? = some '#' then none else some t

/-- A kept table line is valid when it has an `'='` and nonempty trimmed
text before its first `'='` and after it. -/
def validTableLine (line : List Char) : Bool :=
  match splitOnceCharL '=' line with
  | none => false
  | some (lhs, rhs) => ¬(trimL lhs).isEmpty && ¬(trimL rhs).isEmpty

/-- The (0-based) index of the first kept-but-invalid table line. -/
def firstInvalidIdx : Nat → List (List Char) → Option Nat
  | _, [] => none
  | i, l :: rest =>
    match keptTrimmedLine l with
    | some t => if ¬validTableLine t then some i else firstInvalidIdx (i + 1) rest
    | none => firstInvalidIdx (i + 1) rest

/-- The pair a valid kept line denotes: both sides of its first `'='`,
trimmed. -/
def specTablePair (line : List Char) : String × String :=
  match splitOnceCharL '=' line with
  | some (lhs, rhs) => (⟨trimL lhs⟩, ⟨trimL rhs⟩)
  | none => ("", "")

/-- The table the spec describes: the kept lines' pairs, in file
order. -/
def specTablePairs (lines : List (List Char)) : List (String × String) :=
  (lines.filterMap keptTrimmedLine).map specTablePair

/-- Whether a `FnArg` is a typed (non-receiver) parameter. -/
def isTypedArg : FnArgM → Bool
  | .receiver => false
  | .typed _ _ => true

end Sactor

-- sanity checks on the table machinery
example : Sactor.buildLibcScalarPairs "# c\n\n a = b \nx::y=u8" =
    .ok [("a", "b"), ("x::y", "u8")] := rfl
example : Sactor.buildLibcScalarPairs "a=\nb=c" =
    .error "Invalid entry in libc_scalar_map.txt on line 1" := rfl
example : Sactor.mapLibcScalar [("libc::c_int", "i32")] "c_int" = some "i32" := by decide
example : Sactor.mapLibcScalar [("a::x", "u8"), ("b::x", "u16")] "x" = some "u8" := by decide

-- sanity checks on the classifier
open Sactor in
example :
    let t := analyzeType [] (.reference none false (.slice (.path0 false false ["u8"])))
    t.is_reference = true ∧ t.is_slice = true ∧ t.slice_elem = some "u8" ∧
      t.raw = "& [u8]" ∧ t.normalized = "& [u8]" := by decide

open Sactor in
example :
    let t := analyzeType [("MyAlias", "i64")]
      (.ptr true (.ptr true (.path0 false false ["MyAlias"])))
    t.is_pointer = true ∧ t.pointer_depth = 2 ∧ t.pointer_element = some "i64" ∧
      t.raw = "* mut * mut MyAlias" ∧ t.normalized = "*mut *mut MyAlias" := by decide

open Sactor in
example :
    let t := analyzeType []
      (.path1 false false ["Option"] (.path1 false false ["Box"] (.path0 false false ["T"])))
    t.is_option = true ∧ t.is_box = true ∧ t.box_innermost = some "T" ∧
      t.normalized = "Option<Box<T>>" := by decide

open Sactor in
example :
    let t := analyzeType [] (.ptr false (.path0 false false ["str"]))
    t.is_pointer = true ∧ t.is_str = true ∧ t.pointer_element = some "str" := by decide

open Sactor in
example :
    let t := analyzeType [] (.path0 false false ["Option"])
    t.is_option = true ∧ t.option_inner.isNone = true := by decide

-- sanity checks on the alias-declaration normalizer
open Sactor in
example :
    -- `type int32_t = i32;  fn f(x: int32_t) {...}` — no existing import:
    -- the alias is dropped and exactly one `use libc::{int32_t};` appears.
    normalizeStdintAliases
      [.typeAliasItem "int32_t" (.path0 false false ["i32"]),
       .otherItem [(false, ["int32_t"])]] =
    [.useItem (.upath "libc" (.gcons (.uname "int32_t") .gnil)),
     .otherItem [(false, ["int32_t"])]] := by decide

open Sactor in
example :
    -- existing single-name import `use libc::int32_t;`: left alone.
    normalizeStdintAliases
      [.useItem (.upath "libc" (.uname "int32_t")),
       .typeAliasItem "int32_t" (.path0 false false ["i32"]),
       .otherItem [(false, ["int32_t"])]] =
    [.useItem (.upath "libc" (.uname "int32_t")),
     .otherItem [(false, ["int32_t"])]] := by decide

open Sactor in
example :
    -- existing grouped import `use libc::{int32_t};`: a duplicate import is created.
    normalizeStdintAliases
      [.useItem (.upath "libc" (.gcons (.uname "int32_t") .gnil)),
       .typeAliasItem "int32_t" (.path0 false false ["i32"]),
       .otherItem [(false, ["int32_t"])]] =
    [.useItem (.upath "libc" (.gcons (.uname "int32_t") .gnil)),
     .useItem (.upath "libc" (.gcons (.uname "int32_t") .gnil)),
     .otherItem [(false, ["int32_t"])]] := by decide

open Sactor in
example :
    -- existing glob import `use libc::*;`: satisfied, nothing added.
    normalizeStdintAliases
      [.useItem (.upath "libc" .uglob),
       .typeAliasItem "int32_t" (.path0 false false ["i32"]),
       .otherItem [(false, ["int32_t"])]] =
    [.useItem (.upath "libc" .uglob),
     .otherItem [(false, ["int32_t"])]] := by decide

namespace Sactor

/-! ## Supporting lemmas for the Token Normalizer -/

/-- Every token produced by the whitespace split is nonempty and free of
whitespace characters. -/
theorem splitWsAux_tokens (l : List Char) :
    ∀ (acc : List Char), (∀ c ∈ acc, rustIsWs c = false) →
      ∀ t ∈ splitWsAux l acc, t ≠ [] ∧ ∀ c ∈ t, rustIsWs c = false := by
  induction l with
  | nil =>
    intro acc hacc t ht
    simp only [splitWsAux] at ht
    cases ha : acc.isEmpty with
    | true => simp [ha] at ht
    | false =>
      simp [ha] at ht
      subst ht
      refine ⟨?_, ?_⟩
      · simp only [ne_eq, List.reverse_eq_nil_iff]
        simpa [List.isEmpty_iff] using ha
      · intro c hc
        exact hacc c (List.mem_reverse.mp hc)
  | cons c cs ih =>
    intro acc hacc t ht
    simp only [splitWsAux] at ht
    cases hw : rustIsWs c with
    | true =>
      simp only [hw, if_true] at ht
      cases ha : acc.isEmpty with
      | true =>
        simp [ha] at ht
        exact ih [] (by simp) t ht
      | false =>
        simp [ha] at ht
        rcases ht with ht | ht
        · subst ht
          refine ⟨?_, ?_⟩
          · simp only [ne_eq, List.reverse_eq_nil_iff]
            simpa [List.isEmpty_iff] using ha
          · intro x hx
            exact hacc x (List.mem_reverse.mp hx)
        · exact ih [] (by simp) t ht
    | false =>
      simp only [hw, if_false] at ht
      refine ih (c :: acc) ?_ t ht
      intro x hx
      rcases List.mem_cons.mp hx with rfl | hx
      · exact hw
      · exact hacc x hx

/-- Scanning a whitespace-free chunk just moves it into the
accumulator. -/
theorem splitWsAux_append :
    ∀ (t : List Char), (∀ c ∈ t, rustIsWs c = false) →
      ∀ rest acc, splitWsAux (t ++ rest) acc = splitWsAux rest (t.reverse ++ acc) := by
  intro t
  induction t with
  | nil => intro _ rest acc; simp
  | cons c t' ih =>
    intro ht rest acc
    have hc : rustIsWs c = false := ht c (by simp)
    have ht' : ∀ x ∈ t', rustIsWs x = false := fun x hx => ht x (by simp [hx])
    simp only [List.cons_append, splitWsAux, hc, List.append_eq]
    rw [if_neg (by simp)]
    rw [ih ht' rest (c :: acc)]
    simp [List.append_assoc]

/-- Splitting the single-space join of nonempty whitespace-free tokens
recovers the tokens. -/
theorem splitWs_joinTokens :
    ∀ ts, (∀ t ∈ ts, t ≠ [] ∧ ∀ c ∈ t, rustIsWs c = false) →
      splitWs (joinTokens ts) = ts := by
  intro ts
  induction ts with
  | nil => intro _; rfl
  | cons t ts' ih =>
    intro h
    have ht := h t (by simp)
    have hne : t.reverse.isEmpty = false := by
      cases t with
      | nil => exact absurd rfl ht.1
      | cons a as => simp [List.isEmpty_iff]
    cases ts' with
    | nil =>
      show splitWs (joinTokens [t]) = [t]
      have h1 : splitWsAux (t ++ []) [] = splitWsAux [] (t.reverse ++ []) :=
        splitWsAux_append t ht.2 [] []
      simp only [List.append_nil] at h1
      unfold splitWs
      rw [show joinTokens [t] = t from rfl, h1]
      simp [splitWsAux, hne]
    | cons u ts'' =>
      have hj : joinTokens (t :: u :: ts'') = t ++ ' ' :: joinTokens (u :: ts'') := rfl
      unfold splitWs
      rw [hj, splitWsAux_append t ht.2 (' ' :: joinTokens (u :: ts'')) []]
      simp only [List.append_nil]
      have hsp : rustIsWs ' ' = true := by decide
      simp only [splitWsAux, hsp, if_true, hne, if_false]
      rw [List.reverse_reverse]
      exact congrArg (t :: ·) (ih (fun x hx => h x (by simp [hx])))

/-- Whitespace collapse is idempotent. -/
theorem collapseWsL_idem (l : List Char) : collapseWsL (collapseWsL l) = collapseWsL l := by
  unfold collapseWsL
  exact congrArg joinTokens
    (splitWs_joinTokens (splitWs l) (fun t ht => splitWsAux_tokens l [] (by simp) t ht))

/-! ## C3: idempotence of the Token Normalizer -/

/-- C3, counterexample: the claim "`normalize_token_string` is
idempotent for every input string" fails at `":: : x"`.  One pass turns
it into `"::: x"` (the `":: "` collapse stitches a *new* `":: "`
occurrence, which `str::replace` never rescans), and a second pass
collapses that too, giving `":::x"`. -/
theorem c3_counterexample :
    normalize_token_string (normalize_token_string ":: : x") ≠
      normalize_token_string ":: : x" := by
  have h1 : normalize_token_string ":: : x" = "::: x" := by decide
  rw [h1]
  decide

/-- Normalizing a whitespace-collapsed string gives the same result as
normalizing the original: the collapse phase is idempotent, and it is
the first phase of normalization. -/
theorem normalize_token_string_collapseWs (s : String) :
    normalize_token_string (collapseWs s) = normalize_token_string s :=
  congrArg String.mk (by simp only [normalizeTokL, collapseWs, collapseWsL_idem])

/-- C3 (amended): the Token Normalizer is *not* idempotent in general;
it is idempotent on every input on which a single pass degenerates to
whitespace collapse, i.e. whenever `normalize_token_string s =
collapseWs s` (the punctuation-replacement chain and the comma rejoin
change nothing), a second application changes nothing. -/
theorem c3_normalize_idempotent_on_collapsed (s : String)
    (h : normalize_token_string s = collapseWs s) :
    normalize_token_string (normalize_token_string s) = normalize_token_string s := by
  rw [h, normalize_token_string_collapseWs, h]

/-- Witness for `c3_normalize_idempotent_on_collapsed` at `s = "a b"`. -/
theorem c3_witness :
    normalize_token_string "a b" = collapseWs "a b" ∧
      normalize_token_string (normalize_token_string "a b") = normalize_token_string "a b" :=
  ⟨by decide, c3_normalize_idempotent_on_collapsed "a b" (by decide)⟩

/-- A replacement pass whose pattern contains a space leaves any
space-free character list unchanged. -/
theorem replaceAllAux_no_space (p : Char) (ps rep : List Char) (hp : ' ' ∈ p :: ps) :
    ∀ (fuel : Nat) (l : List Char), ' ' ∉ l → replaceAllAux p ps rep fuel l = l := by
  intro fuel
  induction fuel with
  | zero => intro l _; cases l <;> rfl
  | succ n ih =>
    intro l hl
    cases l with
    | nil => rfl
    | cons c rest =>
      have hnp : ¬(p :: ps).isPrefixOf (c :: rest) = true := by
        intro hpre
        exact hl ((List.isPrefixOf_iff_prefix.mp hpre).subset hp)
      simp only [replaceAllAux, hnp, if_false, Bool.false_eq_true]
      rw [ih rest (fun hmem => hl (by simp [hmem]))]

theorem replaceAllL_no_space (p : Char) (ps rep : List Char) (hp : ' ' ∈ p :: ps)
    (l : List Char) (hl : ' ' ∉ l) : replaceAllL p ps rep l = l :=
  replaceAllAux_no_space p ps rep hp l.length l hl

/-- All ten chained `str::replace` patterns contain a space, so the
chain fixes every space-free character list. -/
theorem chainReplaceL_no_space (l : List Char) (hl : ' ' ∉ l) : chainReplaceL l = l := by
  simp only [chainReplaceL]
  iterate 10 rw [replaceAllL_no_space _ _ _ (by simp) l hl]

/-- Whitespace collapse fixes a nonempty all-non-whitespace list. -/
theorem collapseWsL_plain (l : List Char) (hne : l ≠ [])
    (hws : ∀ c ∈ l, rustIsWs c = false) : collapseWsL l = l := by
  unfold collapseWsL splitWs
  have h1 : splitWsAux (l ++ []) [] = splitWsAux [] (l.reverse ++ []) :=
    splitWsAux_append l hws [] []
  simp only [List.append_nil] at h1
  rw [h1]
  have hne' : l.reverse.isEmpty = false := by
    cases l with
    | nil => exact absurd rfl hne
    | cons a as => simp [List.isEmpty_iff]
  simp [splitWsAux, hne', joinTokens]

/-- `normalize_token_string` fixes any nonempty token free of
whitespace and commas (a "plain token"). -/
theorem normalize_token_string_plain (s : String) (h : plainToken s = true) :
    normalize_token_string s = s := by
  obtain ⟨l⟩ := s
  simp only [plainToken, Bool.and_eq_true, Bool.not_eq_true'] at h
  obtain ⟨hne, hall⟩ := h
  have hprops : ∀ c ∈ l, rustIsWs c = false ∧ c ≠ ',' := by
    intro c hc
    have := List.all_eq_true.mp hall c hc
    simp only [Bool.and_eq_true, Bool.not_eq_true, decide_eq_true_eq] at this
    exact this
  have hne' : l ≠ [] := by
    intro hcon
    subst hcon
    simp at hne
  have hnospace : ' ' ∉ l := fun hmem => by
    have := (hprops ' ' hmem).1
    simp [rustIsWs] at this
  have hnocomma : l.contains ',' = false := by
    by_contra hcon
    rw [Bool.not_eq_false, List.contains_eq_any_beq] at hcon
    have : ',' ∈ l := by
      rcases List.any_eq_true.mp hcon with ⟨x, hx, hbeq⟩
      rcases eq_of_beq hbeq with rfl
      exact hx
    exact (hprops ',' this).2 rfl
  have hlist : normalizeTokL l = l := by
    simp only [normalizeTokL]
    rw [collapseWsL_plain l hne' (fun c hc => (hprops c hc).1), chainReplaceL_no_space l hnospace,
      hnocomma]
    simp
  simpa only [normalize_token_string] using congrArg String.mk hlist

/-! ## C6: alias removal and import insertion -/

/-- C6: the claim promises that normalizing a unit with
`type int32_t = i32;` plus a bare use of `int32_t` inserts exactly one
single import and no duplicate when an existing `libc` import already
contains the name.  The code violates this when the existing import is a
brace group: for `use libc::{int32_t}; type int32_t = i32; fn …(x:
int32_t)…` the group merge leaves `int32_t` in the needed set (it only
removes the names it *appends*), so a second `use libc::{int32_t};` is
synthesized — two imports of `int32_t` result. -/
theorem c6_duplicate_import_on_grouped_existing :
    normalizeStdintAliases
        [.useItem (.upath "libc" (.gcons (.uname "int32_t") .gnil)),
         .typeAliasItem "int32_t" (.path0 false false ["i32"]),
         .otherItem [(false, ["int32_t"])]] =
      [.useItem (.upath "libc" (.gcons (.uname "int32_t") .gnil)),
       .useItem (.upath "libc" (.gcons (.uname "int32_t") .gnil)),
       .otherItem [(false, ["int32_t"])]] ∧
    countLibcImportsOf
        (normalizeStdintAliases
          [.useItem (.upath "libc" (.gcons (.uname "int32_t") .gnil)),
           .typeAliasItem "int32_t" (.path0 false false ["i32"]),
           .otherItem [(false, ["int32_t"])]]) "int32_t" = 2 := by
  constructor
  · decide
  · decide

/-! ## C7: panic boundary of the entry points -/

/-- C7, counterexample: the claim says any parser panic inside a
classification call is caught at the call boundary and converted to an
ordinary error.  But `parse_type_traits` invokes the parser with no
panic boundary: with a parser that aborts abnormally, the classify-type
entry point propagates the abnormal termination instead of returning an
error value. -/
theorem c7_counterexample :
    (parseTypeTraitsModel (fun _ => .panicked (some "syn panicked")) [] "T").isPanicked
      = true := by decide

/-- C7 (amended): the panic-to-error conversion exists only in
`parse_src`, the boundary used by the parse-based rewrites — it never
lets a panic outcome escape; the classify-type and classify-signature
entry points call the parser directly, so a parser panic on a nonempty
input propagates to the caller unconverted. -/
theorem c7_panic_boundary :
    (∀ (α : Type) (parse : String → Outcome α) (s : String),
      (parseSrcModel parse s).isPanicked = false) ∧
    (∀ (table : List (String × String)) (m : Option String) (s : String),
      (rustTrim s).isEmpty = false →
      parseTypeTraitsModel (fun _ => .panicked m) table s = .panicked m) ∧
    (∀ (table : List (String × String)) (m : Option String) (s : String),
      (rustTrim s).isEmpty = false →
      parseFunctionSignatureModel (fun _ => .panicked m) table s = .panicked m) := by
  refine ⟨?_, ?_, ?_⟩
  · intro α parse s
    unfold parseSrcModel
    cases h : parse s with
    | ok v => rfl
    | err e => rfl
    | panicked p => cases p <;> rfl
  · intro table m s h
    simp [parseTypeTraitsModel, h]
  · intro table m s h
    simp [parseFunctionSignatureModel, h]

/-- Witness for `c7_panic_boundary` at concrete inputs. -/
theorem c7_witness :
    (parseSrcModel (fun _ => Outcome.panicked (α := Unit) (some "boom")) "x").isPanicked
        = false ∧
      (rustTrim "T").isEmpty = false ∧
      parseTypeTraitsModel (fun _ => .panicked (some "boom")) [] "T" =
        .panicked (some "boom") ∧
      parseFunctionSignatureModel (fun _ => .panicked (some "boom")) [] "fn f();" =
        .panicked (some "boom") :=
  ⟨c7_panic_boundary.1 Unit (fun _ => Outcome.panicked (some "boom")) "x",
   by decide,
   c7_panic_boundary.2.1 [] (some "boom") "T" (by decide),
   c7_panic_boundary.2.2 [] (some "boom") "fn f();" (by decide)⟩

/-! ## C9: empty or whitespace-only classification input -/

/-- C9: classifying an empty or whitespace-only type or signature string
returns the descriptive input-validation error, for *every* parser — in
particular the parser is never consulted and cannot panic. -/
theorem c9_empty_input_validation :
    ∀ (parseTy : String → Outcome RustType) (parseFn : String → Outcome ItemFnM)
      (table : List (String × String)) (s : String),
      (rustTrim s).isEmpty = true →
      parseTypeTraitsModel parseTy table s = .err "Type string cannot be empty" ∧
      parseFunctionSignatureModel parseFn table s =
        .err "Function signature cannot be empty" := by
  intro parseTy parseFn table s h
  constructor
  · simp [parseTypeTraitsModel, h]
  · simp [parseFunctionSignatureModel, h]

/-- Witness for `c9_empty_input_validation` at `s = "  "`. -/
theorem c9_witness :
    (rustTrim "  ").isEmpty = true ∧
      parseTypeTraitsModel (fun _ => .err "unused") [] "  " =
        .err "Type string cannot be empty" ∧
      parseFunctionSignatureModel (fun _ => .err "unused") [] "  " =
        .err "Function signature cannot be empty" :=
  ⟨by decide,
   (c9_empty_input_validation (fun _ => .err "unused") (fun _ => .err "unused") [] "  "
      (by decide)).1,
   (c9_empty_input_validation (fun _ => .err "unused") (fun _ => .err "unused") [] "  "
      (by decide)).2⟩

/-! ## C1 and C4: flag propagation and companion-field invariants -/

section TraitsProofs

attribute [local simp] Traits.base Traits.setRawNorm Traits.setPathIdent Traits.setRefFlags
  Traits.setSlicePair Traits.setStrFlag Traits.setStringFlag Traits.setOptionFlag
  Traits.setOptionInner Traits.setReferenceInner Traits.setPtrFlags Traits.setPtrDepth
  Traits.setPointerInner Traits.setBoxFlag Traits.setBoxInner Traits.setPtrMeta
  Traits.setBoxInnermost Traits.is_str Traits.is_slice Traits.is_string Traits.slice_elem
  Traits.is_reference Traits.is_option Traits.is_pointer Traits.is_box Traits.pointer_depth
  Traits.box_inner Traits.option_inner Traits.reference_inner Traits.pointer_inner
  Traits.path_ident
  armPropagate guardedPropagate postReferenceProp postOptionProp

/-- C1, counterexample: the claim says a node with `is_pointer` true
whose wrapped type is a `str` has `is_slice`/`is_str`/`is_string` all
false at the outer node; but classifying `*const str` yields `is_str =
true` at the pointer node (the `Type::Ptr` arm copies the flags up from
the pointee). -/
theorem c1_counterexample :
    (analyzeType [] (.ptr false (.path0 false false ["str"]))).is_pointer = true ∧
      (analyzeType [] (.path0 false false ["str"])).is_str = true ∧
      (analyzeType [] (.ptr false (.path0 false false ["str"]))).is_str = true := by decide

/-- C1 (amended): the `is_slice`/`is_str`/`is_string` flags propagate
upward one level through *all four* wrappers — reference, `Option`,
raw pointer **and** `Box` — each wrapper node's flags equal its
directly wrapped node's flags. -/
theorem c1_flag_propagation (table : List (String × String)) (ty : RustType) (m : Bool)
    (lt : Option String) (lc q : Bool) :
    ((analyzeType table (.ptr m ty)).is_slice = (analyzeType table ty).is_slice ∧
      (analyzeType table (.ptr m ty)).is_str = (analyzeType table ty).is_str ∧
      (analyzeType table (.ptr m ty)).is_string = (analyzeType table ty).is_string) ∧
    ((analyzeType table (.reference lt m ty)).is_slice = (analyzeType table ty).is_slice ∧
      (analyzeType table (.reference lt m ty)).is_str = (analyzeType table ty).is_str ∧
      (analyzeType table (.reference lt m ty)).is_string = (analyzeType table ty).is_string) ∧
    ((analyzeType table (.path1 lc q ["Option"] ty)).is_slice = (analyzeType table ty).is_slice ∧
      (analyzeType table (.path1 lc q ["Option"] ty)).is_str = (analyzeType table ty).is_str ∧
      (analyzeType table (.path1 lc q ["Option"] ty)).is_string =
        (analyzeType table ty).is_string) ∧
    ((analyzeType table (.path1 lc q ["Box"] ty)).is_slice = (analyzeType table ty).is_slice ∧
      (analyzeType table (.path1 lc q ["Box"] ty)).is_str = (analyzeType table ty).is_str ∧
      (analyzeType table (.path1 lc q ["Box"] ty)).is_string =
        (analyzeType table ty).is_string) := by
  simp only [analyzeType]
  rcases analyzeType table ty with
    ⟨raw, nrm, pid, ir, imr, isl, sel, istr, istg, iop, oin, rin, ip, pim, pd, pin, ib, bin,
      pbi, pbn, pbr, pel, bim⟩
  cases isl <;> cases istr <;> cases istg <;> cases ib <;> simp [finalizeMetadata]

/-- A node of a classified tree satisfying the recursive companion
invariant satisfies it at the top. -/
theorem invariantC4_nodeInv (t : Traits) (h : invariantC4 t = true) : nodeInv t = true := by
  rcases t with
    ⟨raw, nrm, pid, ir, imr, isl, sel, istr, istg, iop, oin, rin, ip, pim, pd, pin, ib, bin,
      pbi, pbn, pbr, pel, bim⟩
  cases oin <;> cases rin <;> cases pin <;> cases bin <;>
    simp only [invariantC4, Bool.and_eq_true] at h <;> simp_all

/-- The recursive companion invariant descends into `box_inner`. -/
theorem invariantC4_boxChild (t b : Traits) (h : invariantC4 t = true)
    (hb : t.box_inner = some b) : invariantC4 b = true := by
  rcases t with
    ⟨raw, nrm, pid, ir, imr, isl, sel, istr, istg, iop, oin, rin, ip, pim, pd, pin, ib, bin,
      pbi, pbn, pbr, pel, bim⟩
  simp only [Traits.box_inner] at hb
  subst hb
  cases oin <;> cases rin <;> cases pin <;>
    simp only [invariantC4, Bool.and_eq_true] at h <;> simp_all

/-- `finalize_metadata` only fills derived metadata fields, so it
neither creates nor destroys the companion invariant. -/
theorem invariantC4_finalizeMetadata (table : List (String × String)) (t : Traits) :
    invariantC4 (finalizeMetadata table t) = invariantC4 t := by
  rcases t with
    ⟨raw, nrm, pid, ir, imr, isl, sel, istr, istg, iop, oin, rin, ip, pim, pd, pin, ib, bin,
      pbi, pbn, pbr, pel, bim⟩
  cases ip <;> cases oin <;> cases rin <;> cases pin <;> cases bin <;>
    simp only [finalizeMetadata, Traits.is_pointer, Traits.setPtrMeta, Traits.setBoxInnermost,
      Bool.false_eq_true, if_false, if_true, invariantC4, nodeInv, Traits.reference_inner,
      Traits.slice_elem, Traits.pointer_inner, Traits.option_inner, Traits.box_inner,
      Traits.is_reference, Traits.is_slice, Traits.is_option, Traits.is_box]

/-- C4, counterexample: classifying the bare path `Option` (no generic
argument) produces `is_option = true` with `option_inner` absent, so
"`option_inner` present iff `is_option`" fails. -/
theorem c4_counterexample :
    (analyzeType [] (.path0 false false ["Option"])).is_option = true ∧
      (analyzeType [] (.path0 false false ["Option"])).option_inner.isNone = true := by decide

/-- C4 (amended): on every classified node, recursively:
`reference_inner` is present iff `is_reference`, `slice_elem` iff
`is_slice`, `pointer_inner` iff `is_pointer`; `option_inner` is present
*only if* `is_option` and `box_inner` *only if* `is_box` (an
argument-less `Option`/`Box` path sets the flag with the companion
absent); in particular a plain node has no companions. -/
theorem c4_companion_invariant (table : List (String × String)) :
    ∀ ty : RustType, invariantC4 (analyzeType table ty) = true := by
  intro ty
  induction ty with
  | reference lt m elem ih =>
    simp only [analyzeType, invariantC4_finalizeMetadata]
    rcases hA : analyzeType table elem with
      ⟨raw, nrm, pid, ir, imr, isl, sel, istr, istg, iop, oin, rin, ip, pim, pd, pin, ib, bin,
        pbi, pbn, pbr, pel, bim⟩
    rw [hA] at ih
    have hn := invariantC4_nodeInv _ ih
    simp only [nodeInv, Traits.reference_inner, Traits.slice_elem, Traits.pointer_inner,
      Traits.option_inner, Traits.box_inner, Traits.is_reference, Traits.is_slice,
      Traits.is_pointer, Traits.is_option, Traits.is_box, Bool.and_eq_true] at hn
    obtain ⟨⟨⟨⟨hrin, hsel⟩, hpin⟩, hopt⟩, hbox⟩ := hn
    cases isl <;> cases istr <;> cases istg <;> cases sel <;>
      first
        | (simp [invariantC4, nodeInv, ih, hrin, hpin, hopt, hbox]; done)
        | simp at hsel
  | slice elem _ih =>
    simp only [analyzeType, invariantC4_finalizeMetadata]
    simp [invariantC4, nodeInv]
  | path0 lc q segs =>
    simp only [analyzeType, invariantC4_finalizeMetadata]
    cases h : segs.getLast? with
    | none => simp [invariantC4, nodeInv]
    | some ident =>
      by_cases h1 : ident = "String"
      · simp [h1, invariantC4, nodeInv]
      · by_cases h2 : ident = "str"
        · simp [h1, h2, invariantC4, nodeInv]
        · by_cases h3 : ident = "Option"
          · simp [h1, h2, h3, invariantC4, nodeInv]
          · by_cases h4 : ident = "Box"
            · simp [h1, h2, h3, h4, invariantC4, nodeInv]
            · simp [h1, h2, h3, h4, invariantC4, nodeInv]
  | path1 lc q segs arg ih =>
    simp only [analyzeType, invariantC4_finalizeMetadata]
    cases h : segs.getLast? with
    | none => simp [invariantC4, nodeInv]
    | some ident =>
      rcases hA : analyzeType table arg with
        ⟨raw, nrm, pid, ir, imr, isl, sel, istr, istg, iop, oin, rin, ip, pim, pd, pin, ib, bin,
          pbi, pbn, pbr, pel, bim⟩
      rw [hA] at ih
      have hn := invariantC4_nodeInv _ ih
      simp only [nodeInv, Traits.reference_inner, Traits.slice_elem, Traits.pointer_inner,
        Traits.option_inner, Traits.box_inner, Traits.is_reference, Traits.is_slice,
        Traits.is_pointer, Traits.is_option, Traits.is_box, Bool.and_eq_true] at hn
      obtain ⟨⟨⟨⟨hrin, hsel⟩, hpin⟩, hopt⟩, hbox⟩ := hn
      have hbc : ∀ b, bin = some b → invariantC4 b = true := fun b hb =>
        invariantC4_boxChild _ b ih (by simp [hb, Traits.box_inner])
      by_cases h1 : ident = "String"
      · simp [h1, invariantC4, nodeInv]
      · by_cases h2 : ident = "str"
        · simp [h1, h2, invariantC4, nodeInv]
        · by_cases h3 : ident = "Option"
          · subst h3
            cases isl <;> cases istr <;> cases istg <;> cases sel <;> cases ib <;>
              cases bin <;>
              first
                | (simp [invariantC4, nodeInv, ih, hrin, hpin, hopt, hbox]; done)
                | (simp [invariantC4, nodeInv, ih, hrin, hpin, hopt, hbox, hbc _ rfl]; done)
                | simp at hsel
          · by_cases h4 : ident = "Box"
            · subst h4
              cases isl <;> cases istr <;> cases istg <;> cases sel <;>
                first
                  | (simp [invariantC4, nodeInv, ih, hrin, hpin, hopt, hbox]; done)
                  | simp at hsel
            · simp [h1, h2, h3, h4, invariantC4, nodeInv]
  | ptr m elem ih =>
    simp only [analyzeType, invariantC4_finalizeMetadata]
    rcases hA : analyzeType table elem with
      ⟨raw, nrm, pid, ir, imr, isl, sel, istr, istg, iop, oin, rin, ip, pim, pd, pin, ib, bin,
        pbi, pbn, pbr, pel, bim⟩
    rw [hA] at ih
    have hn := invariantC4_nodeInv _ ih
    simp only [nodeInv, Traits.reference_inner, Traits.slice_elem, Traits.pointer_inner,
      Traits.option_inner, Traits.box_inner, Traits.is_reference, Traits.is_slice,
      Traits.is_pointer, Traits.is_option, Traits.is_box, Bool.and_eq_true] at hn
    obtain ⟨⟨⟨⟨hrin, hsel⟩, hpin⟩, hopt⟩, hbox⟩ := hn
    cases isl <;> cases istr <;> cases istg <;> cases sel <;>
      first
        | (simp [invariantC4, nodeInv, ih, hrin, hpin, hopt, hbox]; done)
        | simp at hsel
  | paren elem ih =>
    simp only [analyzeType]
    rcases hA : analyzeType table elem with
      ⟨raw, nrm, pid, ir, imr, isl, sel, istr, istg, iop, oin, rin, ip, pim, pd, pin, ib, bin,
        pbi, pbn, pbr, pel, bim⟩
    rw [hA] at ih
    cases oin <;> cases rin <;> cases pin <;> cases bin <;>
      simp only [Traits.setRawNorm, invariantC4, Bool.and_eq_true] at ih ⊢ <;>
        simp_all [nodeInv]
  | group elem ih =>
    simp only [analyzeType]
    rcases hA : analyzeType table elem with
      ⟨raw, nrm, pid, ir, imr, isl, sel, istr, istg, iop, oin, rin, ip, pim, pd, pin, ib, bin,
        pbi, pbn, pbr, pel, bim⟩
    rw [hA] at ih
    cases oin <;> cases rin <;> cases pin <;> cases bin <;>
      simp only [Traits.setRawNorm, invariantC4, Bool.and_eq_true] at ih ⊢ <;>
        simp_all [nodeInv]
  | other toks =>
    simp only [analyzeType, invariantC4_finalizeMetadata]
    simp [invariantC4, nodeInv]

/-! ## C5: `box_innermost` -/

attribute [local simp] Traits.normalized Traits.raw Traits.box_innermost

/-- C5: `box_innermost` unwraps boxes but never pointers.  For an
`Option<Box<T>>` with `T` a plain named type (nonempty identifier with
no whitespace or comma), `box_innermost` equals `T`'s normalized
rendering; and for any raw-pointer type `*const T`/`*mut T`,
`box_innermost` is absent, whatever the pointee. -/
theorem c5_box_unwrap (table : List (String × String)) (name : String)
    (h : plainToken name = true) :
    ((analyzeType table (.path1 false false ["Option"]
        (.path1 false false ["Box"] (.path0 false false [name])))).box_innermost
      = some ((analyzeType table (.path0 false false [name])).normalized)) ∧
    ∀ (m : Bool) (ty : RustType), (analyzeType table (.ptr m ty)).box_innermost = none := by
  have hname : normalize_token_string name = name := normalize_token_string_plain name h
  have hne : name.isEmpty = false := by
    by_contra hcon
    rw [Bool.not_eq_false] at hcon
    rw [(String.isEmpty_iff name).mp hcon] at h
    exact absurd h (by decide)
  constructor
  · by_cases h1 : name = "String"
    · subst h1
      simp only [analyzeType]
      simp [finalizeMetadata, computeBoxInnermost, rawOf, renderToks, pathSegToks,
        joinWithSpace, hname, hne, List.getLast?]
    · by_cases h2 : name = "str"
      · subst h2
        simp only [analyzeType]
        simp [finalizeMetadata, computeBoxInnermost, rawOf, renderToks, pathSegToks,
          joinWithSpace, hname, hne, List.getLast?]
      · by_cases h3 : name = "Option"
        · subst h3
          simp only [analyzeType]
          simp [finalizeMetadata, computeBoxInnermost, rawOf, renderToks, pathSegToks,
            joinWithSpace, hname, hne, List.getLast?]
        · by_cases h4 : name = "Box"
          · subst h4
            simp only [analyzeType]
            simp [finalizeMetadata, computeBoxInnermost, rawOf, renderToks, pathSegToks,
              joinWithSpace, hname, hne, List.getLast?]
          · simp only [analyzeType]
            simp [finalizeMetadata, computeBoxInnermost, rawOf, renderToks, pathSegToks,
              joinWithSpace, hname, hne, List.getLast?, h1, h2, h3, h4]
  · intro m ty
    simp only [analyzeType]
    rcases analyzeType table ty with
      ⟨raw, nrm, pid, ir, imr, isl, sel, istr, istg, iop, oin, rin, ip, pim, pd, pin, ib, bin,
        pbi, pbn, pbr, pel, bim⟩
    cases isl <;> cases istr <;> cases istg <;>
      simp [finalizeMetadata, computeBoxInnermost]

/-- Witness for `c5_box_unwrap` at `T = MyStruct` with an empty table. -/
theorem c5_witness :
    plainToken "MyStruct" = true ∧
      ((analyzeType [] (.path1 false false ["Option"]
          (.path1 false false ["Box"] (.path0 false false ["MyStruct"])))).box_innermost
        = some ((analyzeType [] (.path0 false false ["MyStruct"])).normalized)) :=
  ⟨by decide, (c5_box_unwrap [] "MyStruct" (by decide)).1⟩

end TraitsProofs

/-! ## C2: pointer-element selection -/

/-- The first selection loop is `find_map` over the table lookup. -/
theorem findMappedCandidate_eq (table : List (String × String)) (cands : List String) :
    findMappedCandidate table cands = cands.findSome? (fun c => mapLibcScalar table c) := by
  induction cands with
  | nil => rfl
  | cons c cs ih =>
    simp only [findMappedCandidate, List.findSome?_cons, ih]
    cases mapLibcScalar table c <;> rfl

/-- The second selection loop is `find` on the numeric-primitive set. -/
theorem findNumericCandidate_eq (cands : List String) :
    findNumericCandidate cands = cands.find? (fun c => isNumericPrimitive c) := by
  induction cands with
  | nil => rfl
  | cons c cs ih =>
    simp only [findNumericCandidate, List.find?_cons, ih]
    cases hv : isNumericPrimitive c <;> simp [hv]

/-- The third selection phase is `find` on nonemptiness. -/
theorem findNonemptyCandidate_eq (cands : List String) :
    findNonemptyCandidate cands = cands.find? (fun c => ¬c.isEmpty) := by
  induction cands with
  | nil => rfl
  | cons c cs ih =>
    simp only [findNonemptyCandidate, List.find?_cons, ih]
    cases hv : c.isEmpty <;> simp [hv]

set_option maxHeartbeats 4000000 in
/-- C2: for every classified pointer the element is selected from the
pointer base's ordered de-duplicated candidate list with first-match
precedence — table match first, then verbatim numeric primitive, then
first non-empty candidate, then `"u8"` (also when no base exists); and
end-to-end, `*mut *mut MyAlias` under a table mapping `MyAlias` to
`i64` classifies with `is_pointer`, depth 2 and element `"i64"`. -/
theorem c2_pointer_element_selection :
    (∀ (table : List (String × String)) (t : Traits),
      (computePointerMetadata table t).element =
        match pointerBase t with
        | some b => specSelectElement table (expandedCandidates b)
        | none => "u8") ∧
    ((analyzeType [("MyAlias", "i64")]
        (.ptr true (.ptr true (.path0 false false ["MyAlias"])))).is_pointer = true ∧
      (analyzeType [("MyAlias", "i64")]
        (.ptr true (.ptr true (.path0 false false ["MyAlias"])))).pointer_depth = 2 ∧
      (analyzeType [("MyAlias", "i64")]
        (.ptr true (.ptr true (.path0 false false ["MyAlias"])))).pointer_element =
          some "i64") := by
  constructor
  · intro table t
    rcases hpb : pointerBase t with _ | b
    · simp only [computePointerMetadata, hpb]
    · simp only [computePointerMetadata, hpb, specSelectElement, findMappedCandidate_eq,
        findNumericCandidate_eq, findNonemptyCandidate_eq]
      rcases hm : (expandedCandidates b).findSome? (fun c => mapLibcScalar table c) with _ | mapped
      · rcases hn : (expandedCandidates b).find? (fun c => isNumericPrimitive c) with _ | c <;>
          simp [hm, hn]
      · simp [hm]
  · exact ⟨by decide, by decide, by decide⟩

/-! ## C8: Scalar Alias Table construction -/

/-- C8, counterexample: the claim says construction fails when a kept
line does not contain *exactly one* `'='` separating two non-empty
trimmed strings.  The line `a=b=c` contains two `'='`s, yet construction
succeeds, splitting at the first `'='`. -/
theorem c8_counterexample :
    buildLibcScalarPairs "a=b=c" = .ok [("a", "b=c")] ∧
      ("a=b=c".data.count '=' = 1) = False := by
  constructor
  · rfl
  · decide

/-- The table scan, characterized against the spec-side description:
it fails with the first kept-but-invalid line's message, and otherwise
returns the kept lines' first-`'='`-split trimmed pairs in order. -/
theorem libcScalarPairsAux_spec :
    ∀ (lines : List (List Char)) (idx : Nat),
      libcScalarPairsAux idx lines =
        match firstInvalidIdx idx lines with
        | some i => .error (invalidEntryMsg i)
        | none => .ok (specTablePairs lines) := by
  intro lines
  induction lines with
  | nil => intro idx; rfl
  | cons l rest ih =>
    intro idx
    by_cases h1 : ((trimL l).isEmpty || (trimL l).head? = some '#') = true
    · -- skipped line
      simp only [libcScalarPairsAux, h1, if_true, firstInvalidIdx, keptTrimmedLine,
        specTablePairs, List.filterMap_cons]
      simpa [specTablePairs] using ih (idx + 1)
    · have h1' := eq_false_of_ne_true h1
      simp only [libcScalarPairsAux, h1', if_false, firstInvalidIdx, keptTrimmedLine,
        specTablePairs, List.filterMap_cons]
      rw [if_neg (by simp [h1'])]
      cases hsp : splitOnceCharL '=' (trimL l) with
      | none =>
        simp [validTableLine, hsp]
      | some p =>
        obtain ⟨lhs, rhs⟩ := p
        by_cases h2 : ((trimL lhs).isEmpty || (trimL rhs).isEmpty) = true
        · simp only [h2, if_true]
          have hv : validTableLine (trimL l) = false := by
            simp only [validTableLine, hsp]
            rcases Bool.or_eq_true_iff.mp h2 with h | h <;> simp [h]
          simp [hv]
        · have h2' := eq_false_of_ne_true h2
          simp only [h2', if_false]
          have hv : validTableLine (trimL l) = true := by
            simp only [validTableLine, hsp]
            rcases Bool.or_eq_false_iff.mp h2' with ⟨ha, hb⟩
            simp [ha, hb]
          simp only [Bool.false_eq_true, if_false, hv, not_true,
            if_neg (not_not_intro trivial)]
          rw [ih (idx + 1)]
          cases hf : firstInvalidIdx (idx + 1) rest with
          | some i => simp [hf]
          | none => simp [hf, specTablePair, hsp, specTablePairs]

/-- C8 (amended): ignoring blank and `#` lines, construction fails
fatally exactly when some remaining line has no `'='` or has empty
trimmed text on either side of its *first* `'='` (reporting the first
such line); otherwise the table is the list of (first-`'='`-split,
trimmed) pairs in file order.  "Exactly one `'='`" in the original claim
is wrong: extra `'='`s are absorbed into the primitive side. -/
theorem c8_table_construction (text : String) :
    buildLibcScalarPairs text =
      match firstInvalidIdx 0 (rustLinesL text.data) with
      | some i => .error (invalidEntryMsg i)
      | none => .ok (specTablePairs (rustLinesL text.data)) :=
  libcScalarPairsAux_spec (rustLinesL text.data) 0

/-! ## C10: parameter list of the signature classifier -/

/-- The entries produced by `filterMap`-ing `typedEntry` are exactly the
typed arguments' entries, in order: same length as the typed filter, and
names line up positionally. -/
theorem typedEntry_filterMap_shape (table : List (String × String)) :
    ∀ (inputs : List FnArgM),
      (inputs.filterMap (typedEntry table)).length =
        (inputs.filter isTypedArg).length ∧
      (inputs.filterMap (typedEntry table)).map SigParam.name =
        (inputs.filter isTypedArg).map
          (fun a => match a with
            | .typed pat _ => patName pat
            | .receiver => "") := by
  intro inputs
  induction inputs with
  | nil => exact ⟨rfl, rfl⟩
  | cons a rest ih =>
    cases a with
    | receiver =>
      simpa [typedEntry, isTypedArg] using ih
    | typed pat ty =>
      simp only [List.filterMap_cons, List.filter_cons, typedEntry, isTypedArg,
        if_pos rfl]
      simp [ih.1, ih.2]

/-- C10: for a successfully parsed signature, the returned parameter
list is exactly the typed parameters in declaration order — receivers
are silently skipped, no error is raised, and each entry carries the
pattern's name, the type's raw rendering and its classification. -/
theorem c10_receiver_omitted
    (parseFn : String → Outcome ItemFnM) (table : List (String × String))
    (s : String) (item : ItemFnM)
    (hne : (rustTrim s).isEmpty = false)
    (hp : parseFn (signatureSnippet s) = .ok item) :
    parseFunctionSignatureModel parseFn table s =
      .ok ⟨item.name, item.inputs.filterMap (typedEntry table),
        item.output.map (analyzeType table)⟩ ∧
    (item.inputs.filterMap (typedEntry table)).length =
      (item.inputs.filter isTypedArg).length ∧
    (item.inputs.filterMap (typedEntry table)).map SigParam.name =
      (item.inputs.filter isTypedArg).map
        (fun a => match a with
          | .typed pat _ => patName pat
          | .receiver => "") := by
  refine ⟨?_, typedEntry_filterMap_shape table item.inputs⟩
  simp [parseFunctionSignatureModel, hne, hp]

/-- Witness for `c10_receiver_omitted`: a method signature with a
receiver and one typed parameter yields a params list containing only
the typed parameter, with no error. -/
theorem c10_witness :
    (rustTrim "fn m(&self, x: u8);").isEmpty = false ∧
      (fun (_ : String) =>
          Outcome.ok (⟨"m", [.receiver, .typed (.identPat "x") (.path0 false false ["u8"])],
            none⟩ : ItemFnM)) (signatureSnippet "fn m(&self, x: u8);") =
        .ok ⟨"m", [.receiver, .typed (.identPat "x") (.path0 false false ["u8"])], none⟩ ∧
      parseFunctionSignatureModel
          (fun _ =>
            .ok ⟨"m", [.receiver, .typed (.identPat "x") (.path0 false false ["u8"])], none⟩)
          [] "fn m(&self, x: u8);" =
        .ok ⟨"m",
          ([.receiver, .typed (.identPat "x") (.path0 false false ["u8"])] :
              List FnArgM).filterMap (typedEntry []),
          none⟩ :=
  ⟨by decide, rfl,
   (c10_receiver_omitted
      (fun _ =>
        .ok ⟨"m", [.receiver, .typed (.identPat "x") (.path0 false false ["u8"])], none⟩)
      [] "fn m(&self, x: u8);"
      ⟨"m", [.receiver, .typed (.identPat "x") (.path0 false false ["u8"])], none⟩
      (by decide) rfl).1⟩

end Sactor

-- sanity checks on the normalizer
example : Sactor.normalize_token_string "a  b" = "a b" := by decide
example : Sactor.normalize_token_string "Option < u8 >" = "Option<u8>" := by decide
example : Sactor.normalize_token_string "* mut  libc :: c_int" = "*mut libc::c_int" := by decide
example : Sactor.normalize_token_string "a , , b" = "a, b" := by decide
example : Sactor.normalize_token_string ":: : x" = "::: x" := by decide
example : Sactor.normalize_token_string "::: x" = ":::x" := by decide
